import Mathlib

/-
Verification of the Go-Back-N (GBN) protocol implementation
(gbn_client.py / gbn_server.py): wire codec, sender sliding-window
state machine, and receiver in-order-delivery state machine, embedded
shallowly as executable Lean definitions.

Bytes are modelled as lists of natural numbers (each byte < 256 where
relevant); machine integers are naturals with explicit reductions
modulo 2 ^ 32 at the points where the source packs them; timestamps
are naturals; the Python dictionaries (send_buffer, received_data,
clients) are association lists whose insert operation overwrites an
existing key in place and otherwise appends, matching dict-assignment
semantics.
-/

namespace GBN

/-- Byte strings are lists of naturals. -/
abbrev Bytes := List Nat

/-- Remote endpoints, an opaque (host, port) key used only for equality. -/
abbrev Addr := Nat × Nat

/-- Big-endian 4-byte encoding of a 32-bit natural, as produced by
struct.pack with the network-order unsigned-int directive. -/
def toBE4 (n : Nat) : Bytes :=
  [n / 16777216 % 256, n / 65536 % 256, n / 256 % 256, n % 256]

/-- Big-endian recomposition of four bytes into a natural, as produced by
struct.unpack on a 4-byte field. -/
def fromBE4 (a b c d : Nat) : Nat :=
  ((a * 256 + b) * 256 + c) * 256 + d

/-- Embedding of create_packet (identical in gbn_client.py and
gbn_server.py): header is seq_num (4 bytes), is_ack flag (1 byte),
data_len (4 bytes), all big-endian, followed by the payload. -/
def create_packet (seq_num : Nat) (data : Bytes) (is_ack : Bool) : Bytes :=
  toBE4 seq_num ++ [if is_ack then 1 else 0] ++ toBE4 data.length ++ data

/-- Embedding of parse_packet (identical in gbn_client.py and
gbn_server.py): returns none when fewer than the 9 header bytes are
present (the source returns a None triple), otherwise unpacks the
header and slices data_len bytes of payload, silently truncating when
fewer bytes remain (Python slicing clamps, as does List.take). -/
def parse_packet (p : Bytes) : Option (Nat × Bool × Bytes) :=
  if p.length < 9 then none
  else
    let seq_num := fromBE4 (p.getD 0 0) (p.getD 1 0) (p.getD 2 0) (p.getD 3 0)
    let is_ack := p.getD 4 0 != 0
    let data_len := fromBE4 (p.getD 5 0) (p.getD 6 0) (p.getD 7 0) (p.getD 8 0)
    some (seq_num, is_ack, (p.drop 9).take data_len)

lemma fromBE4_toBE4 (n : Nat) (h : n < 4294967296) :
    fromBE4 (n / 16777216 % 256) (n / 65536 % 256) (n / 256 % 256) (n % 256) = n := by
  unfold fromBE4
  omega

lemma parse_packet_header (b0 b1 b2 b3 ab l0 l1 l2 l3 : Nat) (rest : Bytes) :
    parse_packet (b0 :: b1 :: b2 :: b3 :: ab :: l0 :: l1 :: l2 :: l3 :: rest) =
      some (fromBE4 b0 b1 b2 b3, ab != 0, rest.take (fromBE4 l0 l1 l2 l3)) := by
  unfold parse_packet
  simp [List.getD]

/-- C7: decoding inverts encoding for every sequence number representable
as uint32, every acknowledgment flag, and every payload whose length fits
the 32-bit length field. -/
theorem decode_encode_roundtrip (seq : Nat) (hseq : seq < 4294967296)
    (ack : Bool) (payload : Bytes) (hlen : payload.length < 4294967296) :
    parse_packet (create_packet seq payload ack) = some (seq, ack, payload) := by
  have hcreate : create_packet seq payload ack =
      (seq / 16777216 % 256) :: (seq / 65536 % 256) :: (seq / 256 % 256) :: (seq % 256) ::
      (if ack then 1 else 0) ::
      (payload.length / 16777216 % 256) :: (payload.length / 65536 % 256) ::
      (payload.length / 256 % 256) :: (payload.length % 256) :: payload := by
    simp [create_packet, toBE4]
  rw [hcreate, parse_packet_header, fromBE4_toBE4 seq hseq,
      fromBE4_toBE4 payload.length hlen, List.take_length]
  cases ack <;> simp

/-- C7 witness: a concrete instantiation of the round trip. -/
theorem decode_encode_roundtrip_witness :
    parse_packet (create_packet 5 [1, 2, 3] true) = some (5, true, [1, 2, 3]) :=
  decode_encode_roundtrip 5 (by decide) true [1, 2, 3] (by decide)

/-- C8 counterexample: a 9-byte datagram whose header declares 5 payload
bytes while 0 remain is decoded successfully (with a truncated, empty
payload) instead of failing, so decoding does not fail when fewer payload
bytes remain than declared. -/
theorem parse_packet_truncation_counterexample :
    ¬ parse_packet [0, 0, 0, 0, 0, 0, 0, 0, 5] = none ∧
      parse_packet [0, 0, 0, 0, 0, 0, 0, 0, 5] = some (0, false, []) := by
  constructor
  · decide
  · decide

/-- C8 (amended): decoding fails exactly when the input has fewer than the
fixed 9 header bytes; in every other case it returns the header fields
read from the input — the big-endian sequence number from bytes 0..3, the
acknowledgment flag from byte 4 — together with the first payload bytes
after the header, truncated to the declared big-endian length from bytes
5..8 when fewer remain, so the returned payload has length min(declared
length, remaining bytes) rather than decoding ever failing there. -/
theorem parse_packet_error_cases (p : Bytes) :
    (parse_packet p = none ↔ p.length < 9) ∧
      (9 ≤ p.length →
        parse_packet p =
          some (fromBE4 (p.getD 0 0) (p.getD 1 0) (p.getD 2 0) (p.getD 3 0),
                p.getD 4 0 != 0,
                (p.drop 9).take
                  (fromBE4 (p.getD 5 0) (p.getD 6 0) (p.getD 7 0) (p.getD 8 0))) ∧
        ((p.drop 9).take
            (fromBE4 (p.getD 5 0) (p.getD 6 0) (p.getD 7 0) (p.getD 8 0))).length =
          min (fromBE4 (p.getD 5 0) (p.getD 6 0) (p.getD 7 0) (p.getD 8 0))
            (p.length - 9)) := by
  constructor
  · constructor
    · intro h
      by_contra hlen
      simp [parse_packet, hlen] at h
    · intro h
      simp [parse_packet, h]
  · intro h9
    have hlen : ¬ p.length < 9 := by omega
    constructor
    · simp [parse_packet, hlen]
    · rw [List.length_take, List.length_drop]

/-- C8 witness: the amended characterisation applied at a 7-byte datagram
(too short: decode fails) and at the truncating 9-byte datagram from the
counterexample (header fields 0 and not-ack decoded from the input bytes,
payload truncated to the empty remainder, of length min of declared 5 and
remaining 0). -/
theorem parse_packet_error_cases_witness :
    parse_packet [0, 0, 0, 0, 0, 0, 0] = none ∧
      parse_packet [0, 0, 0, 0, 0, 0, 0, 0, 5] = some (0, false, []) ∧
      List.length ([] : Bytes) = min 5 0 :=
  ⟨(parse_packet_error_cases [0, 0, 0, 0, 0, 0, 0]).1.mpr (by decide),
   ((parse_packet_error_cases [0, 0, 0, 0, 0, 0, 0, 0, 5]).2 (by decide)).1,
   ((parse_packet_error_cases [0, 0, 0, 0, 0, 0, 0, 0, 5]).2 (by decide)).2⟩

/-- Lookup in an association list, the read operation of a Python dict. -/
def lookupA {α β : Type} [DecidableEq α] : List (α × β) → α → Option β
  | [], _ => none
  | (k, v) :: t, a => if k = a then some v else lookupA t a

/-- Assignment in an association list, the write operation of a Python
dict: an existing key is overwritten in place, a new key is appended. -/
def insertA {α β : Type} [DecidableEq α] : List (α × β) → α → β → List (α × β)
  | [], a, b => [(a, b)]
  | (k, v) :: t, a, b => if k = a then (a, b) :: t else (k, v) :: insertA t a b

/-- Deletion from an association list, the del operation of a Python dict
(a no-op when the key is absent, matching the guarded del in the source). -/
def eraseA {α β : Type} [DecidableEq α] (l : List (α × β)) (a : α) : List (α × β) :=
  l.filter (fun e => decide (e.1 ≠ a))

lemma lookupA_insertA_self {α β : Type} [DecidableEq α] (l : List (α × β)) (a : α) (b : β) :
    lookupA (insertA l a b) a = some b := by
  induction l with
  | nil => simp [insertA, lookupA]
  | cons e t ih =>
    obtain ⟨k, v⟩ := e
    by_cases h : k = a
    · simp [insertA, lookupA, h]
    · simp [insertA, lookupA, h, ih]

lemma lookupA_insertA_ne {α β : Type} [DecidableEq α] (l : List (α × β)) (a c : α) (b : β)
    (h : a ≠ c) : lookupA (insertA l a b) c = lookupA l c := by
  induction l with
  | nil => simp [insertA, lookupA, h]
  | cons e t ih =>
    obtain ⟨k, v⟩ := e
    by_cases hk : k = a
    · subst hk
      simp [insertA, lookupA, h, ih]
    · simp only [insertA, if_neg hk]
      by_cases hc : k = c
      · simp [lookupA, hc]
      · simp [lookupA, hc, ih]

lemma lookupA_append_no {α β : Type} [DecidableEq α] (pre rest : List (α × β)) (a : α)
    (h : ∀ e ∈ pre, e.1 ≠ a) : lookupA (pre ++ rest) a = lookupA rest a := by
  induction pre with
  | nil => simp
  | cons e t ih =>
    obtain ⟨k, v⟩ := e
    have hk : k ≠ a := h (k, v) (List.mem_cons_self _ _)
    simp only [List.cons_append, lookupA, if_neg hk]
    exact ih fun e he => h e (List.mem_cons_of_mem _ he)

lemma insertA_append_no {α β : Type} [DecidableEq α] (pre rest : List (α × β)) (a : α) (b : β)
    (h : ∀ e ∈ pre, e.1 ≠ a) : insertA (pre ++ rest) a b = pre ++ insertA rest a b := by
  induction pre with
  | nil => simp
  | cons e t ih =>
    obtain ⟨k, v⟩ := e
    have hk : k ≠ a := h (k, v) (List.mem_cons_self _ _)
    simp only [List.cons_append, insertA, if_neg hk, List.cons.injEq, true_and]
    exact ih fun e he => h e (List.mem_cons_of_mem _ he)

lemma insertA_of_not_mem {α β : Type} [DecidableEq α] (l : List (α × β)) (a : α) (b : β)
    (h : ∀ e ∈ l, e.1 ≠ a) : insertA l a b = l ++ [(a, b)] := by
  induction l with
  | nil => rfl
  | cons e t ih =>
    obtain ⟨k, v⟩ := e
    have hk : k ≠ a := h (k, v) (List.mem_cons_self _ _)
    simp only [insertA, if_neg hk, List.cons_append, List.cons.injEq, true_and]
    exact ih fun e he => h e (List.mem_cons_of_mem _ he)

/-- Embedding of the GBN sender state of GBNClient: window base, next
sequence number to use, and the send_buffer dict mapping each outstanding
sequence number to its payload and last transmission timestamp.
window_size and timeout are the constructor parameters, fixed for a run. -/
structure SenderState where
  window_size : Nat
  timeout : Nat
  base : Nat
  next_seq_num : Nat
  send_buffer : List (Nat × (Bytes × Nat))
deriving DecidableEq

/-- Embedding of the GBNClient constructor's protocol state: base 0,
next_seq_num 0, empty send buffer. -/
def initSender (window_size timeout : Nat) : SenderState :=
  { window_size := window_size, timeout := timeout, base := 0,
    next_seq_num := 0, send_buffer := [] }

/-- Embedding of GBNClient._handle_ack: a cumulative acknowledgment at or
beyond base advances base to ack_seq + 1 and deletes every send_buffer key
in the range from the old base to the new base; a stale acknowledgment
below base leaves the state untouched. -/
def handle_ack (s : SenderState) (ack_seq : Nat) : SenderState :=
  if s.base ≤ ack_seq then
    { s with base := ack_seq + 1,
             send_buffer :=
               (List.range' s.base (ack_seq + 1 - s.base)).foldl eraseA s.send_buffer }
  else s

/-- Embedding of one iteration of the inner transmit loop of
GBNClient.send_data: while the window is open, send the next chunk, record
it with its send time in send_buffer, and advance next_seq_num. -/
def send_data_step (s : SenderState) (data : Bytes) (now : Nat) : SenderState :=
  if s.next_seq_num < s.base + s.window_size then
    { s with send_buffer := insertA s.send_buffer s.next_seq_num (data, now),
             next_seq_num := s.next_seq_num + 1 }
  else s

/-- One iteration of the retransmission loop of GBNClient._timeout_handler:
for a sorted key, if it is at or beyond base, re-send its payload and
refresh its timestamp in the buffer. -/
def retransmit_step (base now : Nat)
    (acc : List (Nat × Bytes) × List (Nat × (Bytes × Nat))) (seq_num : Nat) :
    List (Nat × Bytes) × List (Nat × (Bytes × Nat)) :=
  if base ≤ seq_num then
    match lookupA acc.2 seq_num with
    | some pr => (acc.1 ++ [(seq_num, pr.1)], insertA acc.2 seq_num (pr.1, now))
    | none => acc
  else acc

/-- Embedding of one scan of GBNClient._timeout_handler: collect the
entries whose age exceeds the timeout; if any exist, walk all buffer keys
in sorted order and retransmit every one at or beyond base, refreshing its
sent-at timestamp; otherwise do nothing. Returns the new state and the
list of (sequence, payload) packets retransmitted, in emission order. -/
def timeout_handler_scan (s : SenderState) (now : Nat) :
    SenderState × List (Nat × Bytes) :=
  let timeout_packets := s.send_buffer.filter (fun e => decide (s.timeout < now - e.2.2))
  if timeout_packets.isEmpty then (s, [])
  else
    let r := (List.insertionSort (· ≤ ·) (s.send_buffer.map Prod.fst)).foldl
      (retransmit_step s.base now) ([], s.send_buffer)
    ({ s with send_buffer := r.2 }, r.1)

lemma foldl_eraseA {β : Type} (ks : List Nat) :
    ∀ buf : List (Nat × β), ks.foldl eraseA buf = buf.filter (fun e => decide (e.1 ∉ ks)) := by
  induction ks with
  | nil => intro buf; simp
  | cons k t ih =>
    intro buf
    rw [List.foldl_cons, ih, eraseA, List.filter_filter]
    apply List.filter_congr
    intro e _
    by_cases h1 : e.1 = k <;> by_cases h2 : e.1 ∈ t <;> simp [h1, h2]

lemma handle_ack_advance (s : SenderState) (a : Nat) (h : s.base ≤ a) :
    handle_ack s a =
      { s with base := a + 1,
               send_buffer := s.send_buffer.filter
                 (fun e => decide (¬ (s.base ≤ e.1 ∧ e.1 < a + 1))) } := by
  unfold handle_ack
  rw [if_pos h, foldl_eraseA]
  have : s.send_buffer.filter (fun e => decide (e.1 ∉ List.range' s.base (a + 1 - s.base))) =
      s.send_buffer.filter (fun e => decide (¬ (s.base ≤ e.1 ∧ e.1 < a + 1))) := by
    apply List.filter_congr
    intro e _
    have hm : e.1 ∈ List.range' s.base (a + 1 - s.base) ↔ s.base ≤ e.1 ∧ e.1 < a + 1 := by
      rw [List.mem_range'_1]
      omega
    by_cases he : s.base ≤ e.1 ∧ e.1 < a + 1 <;> simp [hm, he]
  rw [this]

lemma handle_ack_stale (s : SenderState) (a : Nat) (h : a < s.base) :
    handle_ack s a = s := by
  unfold handle_ack
  rw [if_neg (by omega)]

/-- C1: acknowledgment processing — a cumulative acknowledgment with
ack_seq at or beyond base sets base to ack_seq + 1, leaves next_seq_num
(and all other fields) unchanged, and removes from the in-flight buffer
exactly the entries whose keys lie in the old-base..new-base range; a
stale acknowledgment below base leaves the entire state unchanged. -/
theorem handle_ack_cases (s : SenderState) (a : Nat) :
    (s.base ≤ a →
      handle_ack s a =
        { s with base := a + 1,
                 send_buffer := s.send_buffer.filter
                   (fun e => decide (¬ (s.base ≤ e.1 ∧ e.1 < a + 1))) }) ∧
    (a < s.base → handle_ack s a = s) :=
  ⟨handle_ack_advance s a, handle_ack_stale s a⟩

/-- C1 witness: with base 1, an acknowledgment for 2 advances base to 3
and drops the two outstanding entries, while an acknowledgment for 0 is a
no-op on the same state. -/
theorem handle_ack_cases_witness :
    handle_ack ⟨4, 1, 1, 3, [(1, ([5], 0)), (2, ([6], 0))]⟩ 2 =
      { window_size := 4, timeout := 1, base := 3, next_seq_num := 3,
        send_buffer :=
          List.filter (fun e => decide (¬ (1 ≤ e.1 ∧ e.1 < 3))) [(1, ([5], 0)), (2, ([6], 0))] } ∧
    handle_ack ⟨4, 1, 1, 3, [(1, ([5], 0)), (2, ([6], 0))]⟩ 0 =
      ⟨4, 1, 1, 3, [(1, ([5], 0)), (2, ([6], 0))]⟩ :=
  ⟨(handle_ack_cases ⟨4, 1, 1, 3, [(1, ([5], 0)), (2, ([6], 0))]⟩ 2).1 (by decide),
   (handle_ack_cases ⟨4, 1, 1, 3, [(1, ([5], 0)), (2, ([6], 0))]⟩ 0).2 (by decide)⟩

lemma retransmit_fold (base now : Nat) :
    ∀ (n b : Nat) (buf pre : List (Nat × (Bytes × Nat))) (em : List (Nat × Bytes)),
      buf.map Prod.fst = List.range' b n → base ≤ b → (∀ e ∈ pre, e.1 < b) →
      (List.range' b n).foldl (retransmit_step base now) (em, pre ++ buf) =
        (em ++ buf.map (fun e => (e.1, e.2.1)),
         pre ++ buf.map (fun e => (e.1, (e.2.1, now)))) := by
  intro n
  induction n with
  | zero =>
    intro b buf pre em hkeys hb hpre
    have hbuf : buf = [] := by
      cases buf with
      | nil => rfl
      | cons x t => simp [List.range'] at hkeys
    subst hbuf
    simp [List.range']
  | succ m ih =>
    intro b buf pre em hkeys hb hpre
    rw [List.range'_succ] at hkeys ⊢
    cases buf with
    | nil => simp at hkeys
    | cons x t =>
      obtain ⟨k, v⟩ := x
      simp only [List.map_cons, List.cons.injEq] at hkeys
      obtain ⟨hk, ht⟩ := hkeys
      subst hk
      have hpre' : ∀ e ∈ pre, e.1 ≠ k := fun e he => Nat.ne_of_lt (hpre e he)
      rw [List.foldl_cons]
      have hstep : retransmit_step base now (em, pre ++ (k, v) :: t) k =
          (em ++ [(k, v.1)], (pre ++ [(k, (v.1, now))]) ++ t) := by
        unfold retransmit_step
        rw [if_pos hb]
        have hlook : lookupA (pre ++ (k, v) :: t) k = some v := by
          rw [lookupA_append_no pre _ k hpre']
          simp [lookupA]
        have hins : insertA (pre ++ (k, v) :: t) k (v.1, now) =
            pre ++ (k, (v.1, now)) :: t := by
          rw [insertA_append_no pre _ k _ hpre']
          simp [insertA]
        simp [hlook, hins]
      rw [hstep, ih (k + 1) t (pre ++ [(k, (v.1, now))]) (em ++ [(k, v.1)]) ht
            (Nat.le_succ_of_le hb)
            (by
              intro e he
              rcases List.mem_append.1 he with h1 | h1
              · exact Nat.lt_succ_of_lt (hpre e h1)
              · simp at h1
                subst h1
                exact Nat.lt_succ_self k)]
      simp

lemma sorted_keys_of_range' (l : List Nat) (b n : Nat) (h : l = List.range' b n) :
    List.insertionSort (· ≤ ·) l = l := by
  subst h
  exact List.Sorted.insertionSort_eq
    ((List.pairwise_lt_range' b n 1 (by omega)).imp Nat.le_of_lt)

lemma timeout_scan_fires (s : SenderState) (now : Nat)
    (hkeys : s.send_buffer.map Prod.fst =
      List.range' s.base (s.next_seq_num - s.base))
    (hne : (s.send_buffer.filter
      (fun e => decide (s.timeout < now - e.2.2))).isEmpty = false) :
    timeout_handler_scan s now =
      ({ s with send_buffer := s.send_buffer.map (fun e => (e.1, (e.2.1, now))) },
        s.send_buffer.map (fun e => (e.1, e.2.1))) := by
  have hcond : ¬ ((s.send_buffer.filter
      (fun e => decide (s.timeout < now - e.2.2))).isEmpty = true) := by
    rw [hne]
    simp
  simp only [timeout_handler_scan]
  rw [if_neg hcond]
  have hsort := sorted_keys_of_range' _ _ _ hkeys
  rw [hsort, hkeys]
  have hfold := retransmit_fold s.base now (s.next_seq_num - s.base) s.base
    s.send_buffer [] [] hkeys (Nat.le_refl _) (by intro e he; simp at he)
  simp only [List.nil_append] at hfold
  rw [hfold]

lemma timeout_scan_idle (s : SenderState) (now : Nat)
    (he : (s.send_buffer.filter
      (fun e => decide (s.timeout < now - e.2.2))).isEmpty = true) :
    timeout_handler_scan s now = (s, []) := by
  simp only [timeout_handler_scan]
  rw [if_pos he]

/-- C2: one timeout scan over a sender state whose in-flight keys are
exactly the window interval from base to next_seq_num — when at least one
entry's age exceeds the timeout, every outstanding sequence is
retransmitted with its payload, in increasing sequence order, and every
entry's sent-at timestamp becomes the scan time; when no entry's age
exceeds the timeout, nothing is retransmitted and the state is unchanged. -/
theorem timeout_retransmits_full_window (s : SenderState) (now : Nat)
    (hkeys : s.send_buffer.map Prod.fst =
      List.range' s.base (s.next_seq_num - s.base)) :
    ((s.send_buffer.filter (fun e => decide (s.timeout < now - e.2.2))).isEmpty = false →
      timeout_handler_scan s now =
        ({ s with send_buffer := s.send_buffer.map (fun e => (e.1, (e.2.1, now))) },
          s.send_buffer.map (fun e => (e.1, e.2.1))) ∧
      (s.send_buffer.map (fun e => (e.1, e.2.1))).map Prod.fst =
        List.range' s.base (s.next_seq_num - s.base)) ∧
    ((s.send_buffer.filter (fun e => decide (s.timeout < now - e.2.2))).isEmpty = true →
      timeout_handler_scan s now = (s, [])) := by
  constructor
  · intro hne
    refine ⟨timeout_scan_fires s now hkeys hne, ?_⟩
    rw [← hkeys, List.map_map]
    rfl
  · exact timeout_scan_idle s now

/-- C2 witness: a two-packet window with both entries overdue is fully
retransmitted in order 0, 1 with refreshed timestamps; the same window
with fresh timestamps is untouched. -/
theorem timeout_retransmits_full_window_witness :
    timeout_handler_scan ⟨4, 1, 0, 2, [(0, ([7], 0)), (1, ([8], 0))]⟩ 5 =
      (⟨4, 1, 0, 2, [(0, ([7], 5)), (1, ([8], 5))]⟩, [(0, [7]), (1, [8])]) ∧
    timeout_handler_scan ⟨4, 1, 0, 2, [(0, ([7], 4)), (1, ([8], 4))]⟩ 5 =
      (⟨4, 1, 0, 2, [(0, ([7], 4)), (1, ([8], 4))]⟩, []) :=
  ⟨((timeout_retransmits_full_window ⟨4, 1, 0, 2, [(0, ([7], 0)), (1, ([8], 0))]⟩ 5
      (by decide)).1 (by decide)).1,
   (timeout_retransmits_full_window ⟨4, 1, 0, 2, [(0, ([7], 4)), (1, ([8], 4))]⟩ 5
      (by decide)).2 (by decide)⟩

/-- Sender-window invariant of the spec: base at most next_seq_num, the
window never wider than window_size, and the in-flight keys exactly the
interval from base to next_seq_num, in increasing order. -/
def SenderInv (s : SenderState) : Prop :=
  s.base ≤ s.next_seq_num ∧ s.next_seq_num ≤ s.base + s.window_size ∧
    s.send_buffer.map Prod.fst = List.range' s.base (s.next_seq_num - s.base)

lemma map_fst_filter_key {β : Type} (p : Nat → Bool) (l : List (Nat × β)) :
    (l.filter (fun e => p e.1)).map Prod.fst = (l.map Prod.fst).filter p := by
  induction l with
  | nil => rfl
  | cons e t ih =>
    obtain ⟨k, v⟩ := e
    by_cases h : p k <;> simp [List.filter_cons, h, ih]

/-- C4 counterexample: the invariant holds for the freshly initialised
sender, yet processing an acknowledgment for sequence 0 there (an ack_seq
at or beyond base but not below next_seq_num, which the claim's phrase of
arbitrary received ack_seq permits) drives base to 1 while next_seq_num
stays 0, violating base at most next_seq_num. -/
theorem sender_invariant_counterexample :
    SenderInv (initSender 4 2) ∧
      ¬ ((handle_ack (initSender 4 2) 0).base ≤
          (handle_ack (initSender 4 2) 0).next_seq_num) := by
  constructor
  · refine ⟨by decide, by decide, by decide⟩
  · decide

/-- C4 (amended): the sender-window invariant holds for the initial state
and is preserved by every transmit step, by the timeout scan, and by
acknowledgment handling for every ack_seq below next_seq_num (every
acknowledgment actually answering a transmitted packet); next_seq_num
never decreases under any of these operations, so sequence numbers are
monotone and never reused for fresh data. -/
theorem sender_invariant_preserved (w t : Nat) (s : SenderState) (hs : SenderInv s) :
    SenderInv (initSender w t) ∧
    (∀ data now, SenderInv (send_data_step s data now) ∧
      s.next_seq_num ≤ (send_data_step s data now).next_seq_num) ∧
    (∀ a, a < s.next_seq_num → SenderInv (handle_ack s a) ∧
      (handle_ack s a).next_seq_num = s.next_seq_num) ∧
    (∀ now, SenderInv (timeout_handler_scan s now).1 ∧
      (timeout_handler_scan s now).1.next_seq_num = s.next_seq_num) := by
  obtain ⟨h1, h2, h3⟩ := hs
  refine ⟨⟨Nat.le_refl 0, by dsimp only [initSender]; omega, rfl⟩, ?_, ?_, ?_⟩
  · intro data now
    unfold send_data_step
    by_cases hw : s.next_seq_num < s.base + s.window_size
    · rw [if_pos hw]
      have hnotmem : ∀ e ∈ s.send_buffer, e.1 ≠ s.next_seq_num := by
        intro e he heq
        have : e.1 ∈ s.send_buffer.map Prod.fst := List.mem_map_of_mem Prod.fst he
        rw [h3, List.mem_range'_1] at this
        omega
      refine ⟨⟨by dsimp only; omega, by dsimp only; omega, ?_⟩, by dsimp only; omega⟩
      dsimp only
      rw [insertA_of_not_mem _ _ _ hnotmem]
      simp only [List.map_append, List.map_cons, List.map_nil, h3]
      have hsub : s.next_seq_num + 1 - s.base = (s.next_seq_num - s.base) + 1 := by omega
      rw [hsub, List.range'_concat]
      congr 2
      omega
    · rw [if_neg hw]
      exact ⟨⟨h1, h2, h3⟩, Nat.le_refl _⟩
  · intro a ha
    by_cases hb : s.base ≤ a
    · rw [handle_ack_advance s a hb]
      refine ⟨⟨by dsimp only; omega, by dsimp only; omega, ?_⟩, rfl⟩
      dsimp only
      have hsplit : List.range' s.base (s.next_seq_num - s.base) =
          List.range' s.base (a + 1 - s.base) ++
            List.range' (a + 1) (s.next_seq_num - (a + 1)) := by
        have happ := List.range'_append s.base (a + 1 - s.base)
          (s.next_seq_num - (a + 1)) 1
        rw [show s.base + 1 * (a + 1 - s.base) = a + 1 by omega] at happ
        rw [show s.next_seq_num - s.base =
              s.next_seq_num - (a + 1) + (a + 1 - s.base) by omega, ← happ]
      rw [map_fst_filter_key (fun x => decide (¬ (s.base ≤ x ∧ x < a + 1))) s.send_buffer,
          h3, hsplit, List.filter_append]
      have hfirst : (List.range' s.base (a + 1 - s.base)).filter
          (fun x => decide (¬ (s.base ≤ x ∧ x < a + 1))) = [] := by
        rw [List.filter_eq_nil_iff]
        intro x hx
        rw [List.mem_range'_1] at hx
        simp
        omega
      have hsecond : (List.range' (a + 1) (s.next_seq_num - (a + 1))).filter
          (fun x => decide (¬ (s.base ≤ x ∧ x < a + 1))) =
          List.range' (a + 1) (s.next_seq_num - (a + 1)) := by
        rw [List.filter_eq_self]
        intro x hx
        rw [List.mem_range'_1] at hx
        simp
        omega
      rw [hfirst, hsecond, List.nil_append]
    · rw [handle_ack_stale s a (by omega)]
      exact ⟨⟨h1, h2, h3⟩, rfl⟩
  · intro now
    by_cases hf : (s.send_buffer.filter
        (fun e => decide (s.timeout < now - e.2.2))).isEmpty = true
    · rw [timeout_scan_idle s now hf]
      exact ⟨⟨h1, h2, h3⟩, rfl⟩
    · rw [timeout_scan_fires s now h3 (by simpa using hf)]
      refine ⟨⟨h1, h2, ?_⟩, rfl⟩
      rw [List.map_map]
      exact h3

/-- C4 witness: the amended preservation theorem applied to the freshly
initialised sender with window 4: a transmit step from it keeps the
invariant and advances next_seq_num. -/
theorem sender_invariant_preserved_witness :
    SenderInv (send_data_step (initSender 4 2) [1] 0) ∧
      (initSender 4 2).next_seq_num ≤ (send_data_step (initSender 4 2) [1] 0).next_seq_num :=
  (sender_invariant_preserved 4 2 (initSender 4 2)
    ⟨by decide, by decide, by decide⟩).2.1 [1] 0

/-- Embedding of one per-client session of GBNServer: the expected
sequence number, the received_data dict (which the source only ever adds
to — delivered entries are retained), and the last-activity timestamp. -/
structure ReceiverSession where
  expected_seq : Nat
  received_data : List (Nat × Bytes)
  last_activity : Nat
deriving DecidableEq

/-- Server-side session table, the clients dict keyed by remote address. -/
abbrev Clients := List (Addr × ReceiverSession)

/-- Fuel-indexed unfolding of the drain loop of
GBNServer.handle_client_data: while the expected sequence is a key of
received_data, deliver it and advance the expected sequence. The loop
never removes entries. Fuel 0 stops the recursion; drain supplies fuel
that provably exceeds the iteration count, so the cutoff is never hit. -/
def drainF : Nat → List (Nat × Bytes) → Nat → Nat × List (Nat × Bytes)
  | 0, _, e => (e, [])
  | fuel + 1, buf, e =>
    match lookupA buf e with
    | some d =>
      let r := drainF fuel buf (e + 1)
      (r.1, (e, d) :: r.2)
    | none => (e, [])

/-- Drain loop of GBNServer.handle_client_data: returns the final
expected sequence and the (sequence, payload) entries delivered by the
chain, in delivery order. -/
def drain (buf : List (Nat × Bytes)) (e : Nat) : Nat × List (Nat × Bytes) :=
  drainF (buf.length + 1) buf e

lemma filter_ge_succ_length_lt (buf : List (Nat × Bytes)) (e : Nat) (d : Bytes)
    (h : lookupA buf e = some d) :
    (buf.filter (fun x => decide (e + 1 ≤ x.1))).length <
      (buf.filter (fun x => decide (e ≤ x.1))).length := by
  induction buf with
  | nil => simp [lookupA] at h
  | cons x t ih =>
    obtain ⟨k, v⟩ := x
    have hmono : (t.filter (fun x => decide (e + 1 ≤ x.1))).length ≤
        (t.filter (fun x => decide (e ≤ x.1))).length := by
      rw [← List.countP_eq_length_filter, ← List.countP_eq_length_filter]
      apply List.countP_mono_left
      intro x _ hx
      simp only [decide_eq_true_eq] at hx ⊢
      omega
    by_cases hk : k = e
    · subst hk
      simp only [List.filter_cons]
      have h2 : ¬ (k + 1 ≤ (k, v).1) := by simp
      simp [h2]
      omega
    · simp only [lookupA, if_neg hk] at h
      have := ih h
      simp only [List.filter_cons]
      by_cases he1 : e + 1 ≤ k
      · have he0 : e ≤ k := by omega
        simp [he1, he0]
        omega
      · by_cases he0 : e ≤ k
        · simp [he1, he0]
          omega
        · simp [he1, he0]
          omega

lemma drainF_ge (fuel : Nat) : ∀ (buf : List (Nat × Bytes)) (e : Nat),
    e ≤ (drainF fuel buf e).1 := by
  induction fuel with
  | zero => intro buf e; simp [drainF]
  | succ n ih =>
    intro buf e
    cases hl : lookupA buf e with
    | none => simp [drainF, hl]
    | some d =>
      simp only [drainF, hl]
      exact Nat.le_trans (Nat.le_succ e) (ih buf (e + 1))

lemma drainF_lookup_none (fuel : Nat) : ∀ (buf : List (Nat × Bytes)) (e : Nat),
    (buf.filter (fun x => decide (e ≤ x.1))).length < fuel →
    lookupA buf (drainF fuel buf e).1 = none := by
  induction fuel with
  | zero => intro buf e h; omega
  | succ n ih =>
    intro buf e h
    cases hl : lookupA buf e with
    | none => simp [drainF, hl]
    | some d =>
      simp only [drainF, hl]
      apply ih
      have := filter_ge_succ_length_lt buf e d hl
      omega

lemma drain_lookup_none (buf : List (Nat × Bytes)) (e : Nat) :
    lookupA buf (drain buf e).1 = none := by
  apply drainF_lookup_none
  have := List.length_filter_le (fun x => decide (e ≤ x.1)) buf
  omega

lemma drain_ge (buf : List (Nat × Bytes)) (e : Nat) : e ≤ (drain buf e).1 :=
  drainF_ge _ buf e

lemma drainF_mem_ge (fuel : Nat) : ∀ (buf : List (Nat × Bytes)) (e : Nat)
    (x : Nat × Bytes), x ∈ (drainF fuel buf e).2 → e ≤ x.1 := by
  induction fuel with
  | zero => intro buf e x h; simp [drainF] at h
  | succ n ih =>
    intro buf e x h
    cases hl : lookupA buf e with
    | none => simp [drainF, hl] at h
    | some d =>
      simp only [drainF, hl, List.mem_cons] at h
      rcases h with h | h
      · subst h
        exact Nat.le_refl e
      · exact Nat.le_trans (Nat.le_succ e) (ih buf (e + 1) x h)

/-- Per-session body of GBNServer.handle_client_data, after the session
has been fetched or created: refresh last_activity, then branch on the
sequence number — in-order: store the payload, acknowledge it, advance
the expected sequence and run the drain chain (acknowledging nothing
further); stale duplicate: re-acknowledge without storing or delivering;
out-of-order future: store without delivering and re-acknowledge the last
in-order sequence when one exists. Returns the updated session, the
acknowledgment sequences sent, and the (sequence, payload) deliveries. -/
def session_transition (st : ReceiverSession) (seq_num : Nat) (data : Bytes)
    (now : Nat) : ReceiverSession × List Nat × List (Nat × Bytes) :=
  let st1 := { st with last_activity := now }
  if seq_num = st1.expected_seq then
    let st2 := { st1 with received_data := insertA st1.received_data seq_num data }
    let r := drain st2.received_data (st2.expected_seq + 1)
    ({ st2 with expected_seq := r.1 }, [seq_num], (seq_num, data) :: r.2)
  else if seq_num < st1.expected_seq then
    (st1, [seq_num], [])
  else
    let st2 := { st1 with received_data := insertA st1.received_data seq_num data }
    (st2, if 0 < st2.expected_seq then [st2.expected_seq - 1] else [], [])

/-- Embedding of GBNServer.handle_client_data: fetch the session for the
address, creating a fresh one (expected_seq 0, empty buffer) when absent,
run the per-session body, and store the updated session back in the
clients dict. -/
def handle_client_data (clients : Clients) (client_addr : Addr) (seq_num : Nat)
    (data : Bytes) (now : Nat) : Clients × List Nat × List (Nat × Bytes) :=
  let st0 :=
    match lookupA clients client_addr with
    | none => { expected_seq := 0, received_data := [], last_activity := now }
    | some st => st
  let r := session_transition st0 seq_num data now
  (insertA clients client_addr r.1, r.2.1, r.2.2)

/-- Embedding of the per-datagram body of GBNServer.start: parse the
datagram; when parsing reports a malformed datagram (None fields) or the
packet is an acknowledgment, do nothing; otherwise hand the data packet
to handle_client_data. -/
def server_step (clients : Clients) (client_addr : Addr) (packet : Bytes)
    (now : Nat) : Clients × List Nat × List (Nat × Bytes) :=
  match parse_packet packet with
  | some (seq_num, is_ack, data) =>
    if is_ack then (clients, [], [])
    else handle_client_data clients client_addr seq_num data now
  | none => (clients, [], [])

lemma handle_client_data_found (clients : Clients) (addr : Addr) (st : ReceiverSession)
    (seq : Nat) (data : Bytes) (now : Nat) (h : lookupA clients addr = some st) :
    handle_client_data clients addr seq data now =
      (insertA clients addr (session_transition st seq data now).1,
        (session_transition st seq data now).2.1,
        (session_transition st seq data now).2.2) := by
  unfold handle_client_data
  rw [h]

lemma handle_client_data_fresh (clients : Clients) (addr : Addr)
    (seq : Nat) (data : Bytes) (now : Nat) (h : lookupA clients addr = none) :
    handle_client_data clients addr seq data now =
      (insertA clients addr
          (session_transition ⟨0, [], now⟩ seq data now).1,
        (session_transition ⟨0, [], now⟩ seq data now).2.1,
        (session_transition ⟨0, [], now⟩ seq data now).2.2) := by
  unfold handle_client_data
  rw [h]

lemma session_transition_inorder (st : ReceiverSession) (seq : Nat) (data : Bytes)
    (now : Nat) (hseq : seq = st.expected_seq) :
    session_transition st seq data now =
      (⟨(drain (insertA st.received_data seq data) (seq + 1)).1,
          insertA st.received_data seq data, now⟩,
        [seq], (seq, data) :: (drain (insertA st.received_data seq data) (seq + 1)).2) := by
  unfold session_transition
  rw [if_pos hseq]
  dsimp only
  rw [← hseq]

lemma session_transition_stale (st : ReceiverSession) (seq : Nat) (data : Bytes)
    (now : Nat) (hlt : seq < st.expected_seq) :
    session_transition st seq data now =
      (⟨st.expected_seq, st.received_data, now⟩, [seq], []) := by
  unfold session_transition
  rw [if_neg (by dsimp only; omega), if_pos hlt]

lemma session_transition_future (st : ReceiverSession) (seq : Nat) (data : Bytes)
    (now : Nat) (hgt : st.expected_seq < seq) :
    session_transition st seq data now =
      (⟨st.expected_seq, insertA st.received_data seq data, now⟩,
        if 0 < st.expected_seq then [st.expected_seq - 1] else [], []) := by
  unfold session_transition
  rw [if_neg (by dsimp only; omega), if_neg (by dsimp only; omega)]

/-- Session invariant actually maintained by the code: the received_data
dict never holds the currently expected sequence number as a key. -/
def RecvInv (st : ReceiverSession) : Prop :=
  lookupA st.received_data st.expected_seq = none

lemma session_transition_inv (st : ReceiverSession) (seq : Nat) (data : Bytes)
    (now : Nat) (h : RecvInv st) :
    RecvInv (session_transition st seq data now).1 := by
  rcases Nat.lt_trichotomy seq st.expected_seq with hlt | heq | hgt
  · rw [session_transition_stale st seq data now hlt]
    exact h
  · rw [session_transition_inorder st seq data now heq]
    exact drain_lookup_none _ _
  · rw [session_transition_future st seq data now hgt]
    unfold RecvInv
    dsimp only
    rw [lookupA_insertA_ne _ _ _ _ (by omega)]
    exact h

/-- Claimed buffer property of C5: every buffered key lies strictly above
the expected sequence number. -/
def bufferedOnlyFuture (st : ReceiverSession) : Prop :=
  ∀ p ∈ st.received_data, st.expected_seq < p.1

/-- C5 counterexample: after a fresh session handles the single in-order
packet 0, the session has expected_seq 1 yet still holds key 0 in its
buffer — delivered entries are retained, not removed, so the buffer does
not contain only keys strictly greater than expected_seq. -/
theorem receiver_buffer_counterexample :
    lookupA (handle_client_data [] (0, 0) 0 [42] 5).1 (0, 0) =
      some ⟨1, [(0, [42])], 5⟩ ∧
      ¬ bufferedOnlyFuture ⟨1, [(0, [42])], 5⟩ := by
  constructor
  · decide
  · intro hall
    have := hall (0, [42]) (by simp)
    omega

/-- C5 (amended): after every invocation of the datagram handler, the
addressed session's buffer never contains expected_seq itself as a key
(in-order entries are immediately drained past, though they are retained
in the buffer rather than removed); the property is preserved from any
state whose session already satisfies it, and holds for fresh sessions. -/
theorem receiver_never_buffers_expected (clients : Clients) (addr : Addr)
    (seq : Nat) (data : Bytes) (now : Nat)
    (hpre : ∀ st, lookupA clients addr = some st → RecvInv st) :
    ∀ st', lookupA (handle_client_data clients addr seq data now).1 addr = some st' →
      RecvInv st' := by
  intro st' h'
  cases hl : lookupA clients addr with
  | none =>
    rw [handle_client_data_fresh clients addr seq data now hl,
        lookupA_insertA_self] at h'
    cases h'
    exact session_transition_inv _ seq data now (by rfl)
  | some st =>
    rw [handle_client_data_found clients addr st seq data now hl,
        lookupA_insertA_self] at h'
    cases h'
    exact session_transition_inv _ seq data now (hpre st hl)

/-- C5 witness: the amended invariant applied to a fresh session map
receiving packet 0. -/
theorem receiver_never_buffers_expected_witness :
    RecvInv ⟨1, [(0, [42])], 5⟩ :=
  receiver_never_buffers_expected [] (0, 0) 0 [42] 5
    (by intro st h; simp [lookupA] at h) ⟨1, [(0, [42])], 5⟩ (by decide)

/-- C3: a fresh receiver handling packets 0, 2, 1 in that order — packet 0
is delivered and acknowledged; packet 2 is buffered undelivered and the
only acknowledgment sent on its arrival carries sequence 0 (so no
acknowledgment for sequence 2 is ever sent before packet 1 arrives);
packet 1 then triggers delivery of payloads 1 and 2 in order, advances
expected_seq to 3, and is acknowledged alone — the drained entry 2
receives no acknowledgment of its own. -/
theorem receiver_reorder_0_2_1 :
    handle_client_data [] (0, 0) 0 [10] 1 =
      ([((0, 0), ⟨1, [(0, [10])], 1⟩)], [0], [(0, [10])]) ∧
    handle_client_data [((0, 0), ⟨1, [(0, [10])], 1⟩)] (0, 0) 2 [12] 2 =
      ([((0, 0), ⟨1, [(0, [10]), (2, [12])], 2⟩)], [0], []) ∧
    handle_client_data [((0, 0), ⟨1, [(0, [10]), (2, [12])], 2⟩)] (0, 0) 1 [11] 3 =
      ([((0, 0), ⟨3, [(0, [10]), (2, [12]), (1, [11])], 3⟩)], [1],
        [(1, [11]), (2, [12])]) := by
  refine ⟨by decide, by decide, by decide⟩

/-- C6: a session at expected sequence E handling the data packet (E, d)
twice — the first call delivers d for sequence E (exactly once: drained
entries all carry higher sequence numbers) and acknowledges E; the second
call takes the stale-duplicate path: it acknowledges E again, delivers
nothing, and leaves the session's expected_seq and buffer unchanged. -/
theorem duplicate_in_order_delivered_once (clients : Clients) (addr : Addr)
    (st : ReceiverSession) (d : Bytes) (t1 t2 : Nat)
    (h : lookupA clients addr = some st) :
    (handle_client_data clients addr st.expected_seq d t1).2.1 = [st.expected_seq] ∧
    (handle_client_data clients addr st.expected_seq d t1).2.2.filter
        (fun x => decide (x.1 = st.expected_seq)) = [(st.expected_seq, d)] ∧
    (handle_client_data (handle_client_data clients addr st.expected_seq d t1).1
        addr st.expected_seq d t2).2.1 = [st.expected_seq] ∧
    (handle_client_data (handle_client_data clients addr st.expected_seq d t1).1
        addr st.expected_seq d t2).2.2 = [] ∧
    (lookupA (handle_client_data (handle_client_data clients addr st.expected_seq d t1).1
        addr st.expected_seq d t2).1 addr).map
        (fun s2 => (s2.expected_seq, s2.received_data)) =
      (lookupA (handle_client_data clients addr st.expected_seq d t1).1 addr).map
        (fun s1 => (s1.expected_seq, s1.received_data)) := by
  have h1 := handle_client_data_found clients addr st st.expected_seq d t1 h
  have htr1 := session_transition_inorder st st.expected_seq d t1 rfl
  set buf1 := insertA st.received_data st.expected_seq d with hbuf1
  set s3 : ReceiverSession :=
    ⟨(drain buf1 (st.expected_seq + 1)).1, buf1, t1⟩ with hs3
  have hres1 : handle_client_data clients addr st.expected_seq d t1 =
      (insertA clients addr s3, [st.expected_seq],
        (st.expected_seq, d) :: (drain buf1 (st.expected_seq + 1)).2) := by
    rw [h1, htr1]
  have hlook1 : lookupA (handle_client_data clients addr st.expected_seq d t1).1 addr =
      some s3 := by
    rw [hres1]
    exact lookupA_insertA_self clients addr s3
  have hge : st.expected_seq + 1 ≤ s3.expected_seq := drain_ge buf1 (st.expected_seq + 1)
  have h2 := handle_client_data_found _ addr s3 st.expected_seq d t2 hlook1
  have htr2 := session_transition_stale s3 st.expected_seq d t2 (by omega)
  refine ⟨by rw [hres1], ?_, ?_, ?_, ?_⟩
  · rw [hres1]
    dsimp only
    rw [List.filter_cons]
    have hhead : decide ((st.expected_seq, d).1 = st.expected_seq) = true := by simp
    rw [hhead]
    simp only [if_true]
    have htail : (drain buf1 (st.expected_seq + 1)).2.filter
        (fun x => decide (x.1 = st.expected_seq)) = [] := by
      rw [List.filter_eq_nil_iff]
      intro x hx
      have := drainF_mem_ge _ buf1 (st.expected_seq + 1) x hx
      simp only [decide_eq_true_eq]
      omega
    rw [htail]
  · rw [h2, htr2]
  · rw [h2, htr2]
  · rw [h2, htr2, hlook1]
    dsimp only
    rw [lookupA_insertA_self]
    simp only [hs3]
    rfl

/-- C6 witness: a concrete session at expected sequence 0 receiving the
same packet twice. -/
theorem duplicate_in_order_delivered_once_witness :
    (handle_client_data [((0, 0), ⟨0, [], 0⟩)] (0, 0) 0 [9] 1).2.1 = [0] ∧
    (handle_client_data [((0, 0), ⟨0, [], 0⟩)] (0, 0) 0 [9] 1).2.2.filter
        (fun x => decide (x.1 = 0)) = [(0, [9])] ∧
    (handle_client_data (handle_client_data [((0, 0), ⟨0, [], 0⟩)] (0, 0) 0 [9] 1).1
        (0, 0) 0 [9] 2).2.1 = [0] ∧
    (handle_client_data (handle_client_data [((0, 0), ⟨0, [], 0⟩)] (0, 0) 0 [9] 1).1
        (0, 0) 0 [9] 2).2.2 = [] ∧
    (lookupA (handle_client_data (handle_client_data [((0, 0), ⟨0, [], 0⟩)] (0, 0)
        0 [9] 1).1 (0, 0) 0 [9] 2).1 (0, 0)).map
        (fun s2 => (s2.expected_seq, s2.received_data)) =
      (lookupA (handle_client_data [((0, 0), ⟨0, [], 0⟩)] (0, 0) 0 [9] 1).1 (0, 0)).map
        (fun s1 => (s1.expected_seq, s1.received_data)) :=
  duplicate_in_order_delivered_once [((0, 0), ⟨0, [], 0⟩)] (0, 0) ⟨0, [], 0⟩ [9] 1 2
    (by decide)

/-- C9: the per-datagram processing of the receiver engine is a total
function, and a datagram shorter than the 9-byte header is silently
discarded — the session map is unchanged and no acknowledgment or
delivery is produced. -/
theorem short_datagram_discarded (clients : Clients) (addr : Addr) (p : Bytes)
    (now : Nat) (h : p.length < 9) :
    server_step clients addr p now = (clients, [], []) := by
  unfold server_step
  have hparse : parse_packet p = none := by
    simp [parse_packet, h]
  rw [hparse]

/-- C9 witness: a 3-byte datagram is discarded without touching an empty
session map. -/
theorem short_datagram_discarded_witness :
    server_step [] (0, 0) [1, 2, 3] 0 = ([], [], []) :=
  short_datagram_discarded [] (0, 0) [1, 2, 3] 0 (by decide)

/-- C10: a well-formed datagram carrying the acknowledgment flag is a
complete no-op at the receiver: no session is created or modified and no
acknowledgment or delivery is emitted, because the data-packet handler is
invoked only for successfully parsed datagrams with the flag clear. -/
theorem ack_datagram_no_op (clients : Clients) (addr : Addr) (p : Bytes)
    (now : Nat) (seq : Nat) (data : Bytes)
    (h : parse_packet p = some (seq, true, data)) :
    server_step clients addr p now = (clients, [], []) := by
  unfold server_step
  rw [h]
  simp

/-- C10 witness: an encoded acknowledgment packet for sequence 3 leaves an
empty session map untouched. -/
theorem ack_datagram_no_op_witness :
    server_step [] (0, 0) (create_packet 3 [] true) 7 = ([], [], []) :=
  ack_datagram_no_op [] (0, 0) (create_packet 3 [] true) 7 3 [] (by decide)

end GBN
